import Mathlib

/-!
Shallow embedding of `deptree_rs` (`src/lib.rs`), a dependency-graph engine:
an append-only table of targets addressed by integer handles, per-target
up/down edge sets, a four-state lifecycle per target, an incrementally
maintained root set, a running counter, and a lazy transitive-reduction
pass (`simplify`).

Modelling conventions:
* `TargetIndex(usize)` handles become plain `Nat` indices into the target list.
* Rust `HashSet<TargetIndex>` becomes `Finset Nat`; iteration order over a
  `HashSet` is unspecified in Rust, so wherever the code iterates a set we
  iterate its elements in ascending order (`Finset.sort`).
* `ready`, `depends_on`, `depended_by` build a `Vec` from a set in the Rust
  code (each element once, order unspecified); they are modelled as the
  corresponding `Finset`.
* Fallible operations return `Deptree × Except DeptreeError Unit`, pairing
  the post-state with the `Result`.
* The recursive reduction `simplify_impl` terminates on DAGs because the
  shared `seen` array grows at every call; the embedding uses a fuel
  parameter, with fuel `targets.length + 1` supplied by `simplify`, which is
  never exhausted on acyclic graphs (on cyclic input the Rust recursion is
  unbounded and the spec leaves behavior unspecified).
-/

set_option autoImplicit false

inductive TargetState where
  | Unstarted
  | Started
  | Failed
  | Finished
deriving DecidableEq, Repr

inductive DeptreeError where
  | AlreadyStarted (n : String)
  | StartedFailed (n : String)
  | StartedFinished (n : String)
  | NotYetStarted (n : String)
  | AlreadyFinished (n : String)
  | FinishFailed (n : String)
  | AlreadyFailed (n : String)
  | UnstartedFailed (n : String)
deriving DecidableEq, Repr

structure TargetData (Attribs : Type) where
  name : String
  state : TargetState
  up : Finset Nat
  down : Finset Nat
  attribs : Option Attribs
deriving DecidableEq

instance {Attribs : Type} : Inhabited (TargetData Attribs) :=
  ⟨⟨"", TargetState.Unstarted, ∅, ∅, none⟩⟩

/-- Rust `TargetData::new`: fresh record in `Unstarted` state with empty edge sets. -/
def TargetData.mk_new {Attribs : Type} (name : String) (attribs : Option Attribs) :
    TargetData Attribs :=
  ⟨name, TargetState.Unstarted, ∅, ∅, attribs⟩

structure Deptree (Attribs : Type) where
  targets : List (TargetData Attribs)
  roots : Finset Nat
  leaves : Finset Nat
  running : Nat
  simple : Bool
deriving DecidableEq

/-- Ascending listing of a finite set of naturals, fixing the (unspecified)
`HashSet` iteration order of the Rust code.  Defined through insertion sort,
which is structurally recursive and therefore reduces in the kernel. -/
def sortedList (s : Finset Nat) : List Nat :=
  Quot.lift (List.insertionSort (· ≤ ·))
    (fun _ _ h => List.eq_of_perm_of_sorted
      ((List.perm_insertionSort _ _).trans
        (h.trans (List.perm_insertionSort _ _).symm))
      (List.sorted_insertionSort _ _) (List.sorted_insertionSort _ _)) s.val

/-- Apply `f` to the element at index `n`, leaving the list unchanged when
`n` is out of range (the Rust code would panic there; all claims are about
valid handles). -/
def modifyIdx {α : Type} (f : α → α) : Nat → List α → List α
  | _, [] => []
  | 0, a :: as => f a :: as
  | n + 1, a :: as => a :: modifyIdx f n as

namespace Deptree

variable {Attribs : Type}

/-- Rust `Deptree::new`. -/
def new : Deptree Attribs :=
  ⟨[], ∅, ∅, 0, true⟩

/-- Rust `Deptree::add_target_attribs`: push a fresh `Unstarted` record, insert its
index into `roots` and `leaves`, mark the tree dirty; returns the new tree and
the new handle. -/
def add_target_attribs (t : Deptree Attribs) (name : String) (attribs : Option Attribs) :
    Deptree Attribs × Nat :=
  (⟨t.targets ++ [TargetData.mk_new name attribs],
    insert t.targets.length t.roots,
    insert t.targets.length t.leaves,
    t.running, false⟩, t.targets.length)

/-- Rust `Deptree::add_target`. -/
def add_target (t : Deptree Attribs) (name : String) : Deptree Attribs × Nat :=
  t.add_target_attribs name none

/-- Rust `Deptree::depend one two`: `two` into `one.up`, `one` into `two.down`,
remove `one` from roots and `two` from leaves, mark dirty. -/
def depend (t : Deptree Attribs) (one two : Nat) : Deptree Attribs :=
  { t with
    targets := modifyIdx (fun d => { d with down := insert one d.down }) two
        (modifyIdx (fun d => { d with up := insert two d.up }) one t.targets),
    roots := t.roots.erase one,
    leaves := t.leaves.erase two,
    simple := false }

/-- Rust `Deptree::name`. -/
def name (t : Deptree Attribs) (target : Nat) : String :=
  (t.targets.getD target default).name

/-- Rust `Deptree::attribs`. -/
def attribs (t : Deptree Attribs) (target : Nat) : Option Attribs :=
  (t.targets.getD target default).attribs

/-- Rust `Deptree::ready`: the roots whose state is still `Unstarted`. -/
def ready (t : Deptree Attribs) : Finset Nat :=
  t.roots.filter (fun i => (t.targets.getD i default).state = TargetState.Unstarted)

/-- Rust `Deptree::start`. -/
def start (t : Deptree Attribs) (target : Nat) :
    Deptree Attribs × Except DeptreeError Unit :=
  let data := t.targets.getD target default
  match data.state with
  | TargetState.Started => (t, Except.error (DeptreeError.AlreadyStarted data.name))
  | TargetState.Failed => (t, Except.error (DeptreeError.StartedFailed data.name))
  | TargetState.Finished => (t, Except.error (DeptreeError.StartedFinished data.name))
  | TargetState.Unstarted =>
      ({ t with
         targets := modifyIdx (fun d => { d with state := TargetState.Started })
             target t.targets,
         running := t.running + 1 }, Except.ok ())

/-- One iteration of the loop in `simplify_impl` over the cloned `down` set:
skip dependents already `seen`, otherwise recurse and union the returned
`below` set into the accumulator.  `step` is the body of `simplify_impl`
specialised to one fuel level; the two are tied together below. -/
def simplifyImpl : Nat → Deptree Attribs → Nat → Finset Nat →
    Deptree Attribs × Finset Nat × Finset Nat
  | 0, t, _, seen => (t, seen, ∅)
  | fuel + 1, t, target, seen =>
      let seen1 := insert target seen
      let down := (t.targets.getD target default).down
      let r := (sortedList down).foldl
        (fun acc dependent =>
          if dependent ∈ acc.2.1 then acc
          else
            let r2 := simplifyImpl fuel acc.1 dependent acc.2.1
            (r2.1, r2.2.1, acc.2.2 ∪ r2.2.2))
        (t, seen1, (∅ : Finset Nat))
      let t2 := { r.1 with
        targets := modifyIdx
            (fun d => { d with down := d.down.filter (fun d2 => d2 ∉ r.2.2) })
            target r.1.targets }
      (t2, r.2.1, r.2.2 ∪ down)

/-- The loop body of `simplify_impl`, as a named function (definitionally the
lambda inside `simplifyImpl`). -/
def simplifyStep (fuel : Nat) (acc : Deptree Attribs × Finset Nat × Finset Nat)
    (dependent : Nat) : Deptree Attribs × Finset Nat × Finset Nat :=
  if dependent ∈ acc.2.1 then acc
  else
    let r2 := simplifyImpl fuel acc.1 dependent acc.2.1
    (r2.1, r2.2.1, acc.2.2 ∪ r2.2.2)

/-- Rust `Deptree::simplify`: no-op when already simple, otherwise run
`simplify_impl` from every root with one shared `seen` set, then mark simple. -/
def simplify (t : Deptree Attribs) : Deptree Attribs :=
  if t.simple then t
  else
    let fuel := t.targets.length + 1
    let r := (sortedList t.roots).foldl
      (fun acc root =>
        let r2 := simplifyImpl fuel acc.1 root acc.2
        (r2.1, r2.2.1))
      (t, (∅ : Finset Nat))
    { r.1 with simple := true }

/-- Rust `Deptree::finish`: simplify first, then transition `Started → Finished`,
promote the (just-reduced) down-set into roots, decrement `running`, drop the
target from roots. -/
def finish (t : Deptree Attribs) (target : Nat) :
    Deptree Attribs × Except DeptreeError Unit :=
  let ts := t.simplify
  let data := ts.targets.getD target default
  match data.state with
  | TargetState.Unstarted => (ts, Except.error (DeptreeError.NotYetStarted data.name))
  | TargetState.Finished => (ts, Except.error (DeptreeError.AlreadyFinished data.name))
  | TargetState.Failed => (ts, Except.error (DeptreeError.FinishFailed data.name))
  | TargetState.Started =>
      ({ ts with
         targets := modifyIdx (fun d => { d with state := TargetState.Finished })
             target ts.targets,
         roots := (ts.roots ∪ data.down).erase target,
         running := ts.running - 1 }, Except.ok ())

/-- Rust `Deptree::fail`: transition `Started → Failed`, decrement `running`,
drop the target from roots; dependents are not notified. -/
def fail (t : Deptree Attribs) (target : Nat) :
    Deptree Attribs × Except DeptreeError Unit :=
  let data := t.targets.getD target default
  match data.state with
  | TargetState.Unstarted => (t, Except.error (DeptreeError.UnstartedFailed data.name))
  | TargetState.Finished => (t, Except.error (DeptreeError.FinishFailed data.name))
  | TargetState.Failed => (t, Except.error (DeptreeError.AlreadyFailed data.name))
  | TargetState.Started =>
      ({ t with
         targets := modifyIdx (fun d => { d with state := TargetState.Failed })
             target t.targets,
         running := t.running - 1,
         roots := t.roots.erase target }, Except.ok ())

/-- Rust `Deptree::done`. -/
def done (t : Deptree Attribs) : Bool :=
  t.running == 0 && t.roots == (∅ : Finset Nat)

/-- Rust `Deptree::depended_by`: the target's down-set. -/
def depended_by (t : Deptree Attribs) (target : Nat) : Finset Nat :=
  (t.targets.getD target default).down

/-- Rust `Deptree::depends_on`: the target's up-set. -/
def depends_on (t : Deptree Attribs) (target : Nat) : Finset Nat :=
  (t.targets.getD target default).up

end Deptree

/-! ### Lemmas about `modifyIdx` -/

theorem length_modifyIdx {α : Type} (f : α → α) (n : Nat) (l : List α) :
    (modifyIdx f n l).length = l.length := by
  induction l generalizing n with
  | nil => simp [modifyIdx]
  | cons a as ih =>
    cases n with
    | zero => rfl
    | succ m => simpa [modifyIdx] using ih m

theorem modifyIdx_oob {α : Type} (f : α → α) (n : Nat) (l : List α)
    (h : l.length ≤ n) : modifyIdx f n l = l := by
  induction l generalizing n with
  | nil => simp [modifyIdx]
  | cons a as ih =>
    cases n with
    | zero => simp at h
    | succ m =>
      simp only [modifyIdx, List.cons.injEq, true_and]
      exact ih m (by simpa using h)

theorem getD_modifyIdx_ne {α : Type} (f : α → α) (n m : Nat) (l : List α) (d : α)
    (h : m ≠ n) : (modifyIdx f n l).getD m d = l.getD m d := by
  induction l generalizing n m with
  | nil => simp [modifyIdx]
  | cons a as ih =>
    cases n with
    | zero =>
      cases m with
      | zero => exact absurd rfl h
      | succ k => rfl
    | succ j =>
      cases m with
      | zero => rfl
      | succ k => simpa [modifyIdx] using ih j k (fun hh => h (by omega))

theorem getD_modifyIdx_self {α : Type} (f : α → α) (n : Nat) (l : List α) (d : α)
    (h : n < l.length) : (modifyIdx f n l).getD n d = f (l.getD n d) := by
  induction l generalizing n with
  | nil => simp at h
  | cons a as ih =>
    cases n with
    | zero => rfl
    | succ m => simpa [modifyIdx] using ih m (by simpa using h)

theorem countP_modifyIdx {α : Type} (p : α → Bool) (f : α → α) (n : Nat)
    (l : List α) (d : α) (h : n < l.length) :
    (modifyIdx f n l).countP p + (if p (l.getD n d) then 1 else 0)
      = l.countP p + (if p (f (l.getD n d)) then 1 else 0) := by
  induction l generalizing n with
  | nil => simp at h
  | cons a as ih =>
    cases n with
    | zero =>
      simp only [modifyIdx, List.countP_cons, List.getD_cons_zero]
      omega
    | succ m =>
      have := ih m (by simpa using h)
      simp only [modifyIdx, List.countP_cons, List.getD_cons_succ]
      omega

theorem countP_eq_of_getD {α : Type} [Inhabited α] (p : α → Bool) :
    ∀ (l l' : List α), l'.length = l.length →
      (∀ i, p (l'.getD i default) = p (l.getD i default)) →
      l'.countP p = l.countP p := by
  intro l
  induction l with
  | nil =>
    intro l' hlen _
    cases l' with
    | nil => rfl
    | cons b bs => simp at hlen
  | cons a as ih =>
    intro l' hlen hpt
    cases l' with
    | nil => simp at hlen
    | cons b bs =>
      have h0 := hpt 0
      simp only [List.getD_cons_zero] at h0
      have htail := ih bs (by simpa using hlen) (fun i => by simpa using hpt (i + 1))
      simp only [List.countP_cons, htail, h0]

/-! ### The frame of the reduction pass -/

/-- All fields of a target record agree except that the down-set may only
have shrunk. -/
def FrameEqData {A : Type} (d' d : TargetData A) : Prop :=
  d'.state = d.state ∧ d'.name = d.name ∧ d'.attribs = d.attribs ∧
  d'.up = d.up ∧ d'.down ⊆ d.down

/-- The reduction pass may only shrink down-sets; every other component of the
tree, except the `simple` flag, is untouched. -/
def Frame {A : Type} (t t' : Deptree A) : Prop :=
  t'.targets.length = t.targets.length ∧
  t'.roots = t.roots ∧ t'.leaves = t.leaves ∧
  t'.running = t.running ∧ t'.simple = t.simple ∧
  ∀ i, FrameEqData (t'.targets.getD i default) (t.targets.getD i default)

theorem frameEqData_refl {A : Type} (d : TargetData A) : FrameEqData d d :=
  ⟨rfl, rfl, rfl, rfl, Finset.Subset.refl _⟩

theorem frameEqData_trans {A : Type} {d1 d2 d3 : TargetData A}
    (h1 : FrameEqData d2 d1) (h2 : FrameEqData d3 d2) : FrameEqData d3 d1 :=
  ⟨h2.1.trans h1.1, h2.2.1.trans h1.2.1, h2.2.2.1.trans h1.2.2.1,
   h2.2.2.2.1.trans h1.2.2.2.1, h2.2.2.2.2.trans h1.2.2.2.2⟩

theorem frame_refl {A : Type} (t : Deptree A) : Frame t t :=
  ⟨rfl, rfl, rfl, rfl, rfl, fun _ => frameEqData_refl _⟩

theorem frame_trans {A : Type} {t1 t2 t3 : Deptree A}
    (h1 : Frame t1 t2) (h2 : Frame t2 t3) : Frame t1 t3 :=
  ⟨h2.1.trans h1.1, h2.2.1.trans h1.2.1, h2.2.2.1.trans h1.2.2.1,
   h2.2.2.2.1.trans h1.2.2.2.1, h2.2.2.2.2.1.trans h1.2.2.2.2.1,
   fun i => frameEqData_trans (h1.2.2.2.2.2 i) (h2.2.2.2.2.2 i)⟩

theorem foldl_preserves {α β : Type} (P : β → Prop) (step : β → α → β)
    (hstep : ∀ acc x, P acc → P (step acc x)) :
    ∀ (l : List α) (acc : β), P acc → P (l.foldl step acc)
  | [], _, h => h
  | x :: xs, acc, h => foldl_preserves P step hstep xs (step acc x) (hstep acc x h)

/-- Unfolding of `simplifyImpl` at positive fuel, phrased with `simplifyStep`. -/
theorem simplifyImpl_succ {A : Type} (fuel : Nat) (t : Deptree A)
    (target : Nat) (seen : Finset Nat) :
    Deptree.simplifyImpl (fuel + 1) t target seen =
      (let r := (sortedList (t.targets.getD target default).down).foldl
          (Deptree.simplifyStep fuel) (t, insert target seen, (∅ : Finset Nat));
       ({ r.1 with
          targets := modifyIdx
            (fun d => { d with down := d.down.filter (fun d2 => d2 ∉ r.2.2) })
            target r.1.targets }, r.2.1,
        r.2.2 ∪ (t.targets.getD target default).down)) := rfl

/-- Modifying one record in a frame-respecting way respects the tree frame. -/
theorem frame_modify_down {A : Type} (t : Deptree A) (target : Nat)
    (g : TargetData A → TargetData A) (hg : ∀ d, FrameEqData (g d) d) :
    Frame t { t with targets := modifyIdx g target t.targets } := by
  refine ⟨length_modifyIdx _ _ _, rfl, rfl, rfl, rfl, fun i => ?_⟩
  by_cases hi : i = target
  · subst hi
    by_cases hlt : i < t.targets.length
    · rw [getD_modifyIdx_self _ _ _ _ hlt]
      exact hg _
    · rw [modifyIdx_oob _ _ _ (by omega)]
      exact frameEqData_refl _
  · rw [getD_modifyIdx_ne _ _ _ _ _ hi]
    exact frameEqData_refl _

theorem frame_simplifyImpl {A : Type} :
    ∀ (fuel : Nat) (t : Deptree A) (target : Nat) (seen : Finset Nat),
      Frame t (Deptree.simplifyImpl fuel t target seen).1 := by
  intro fuel
  induction fuel with
  | zero => intro t target seen; exact frame_refl t
  | succ fuel ih =>
    intro t target seen
    have hstep : ∀ (acc : Deptree A × Finset Nat × Finset Nat) (x : Nat),
        Frame t acc.1 → Frame t (Deptree.simplifyStep fuel acc x).1 := by
      intro acc x hacc
      rw [Deptree.simplifyStep]
      split
      · exact hacc
      · exact frame_trans hacc (ih acc.1 x acc.2.1)
    rw [simplifyImpl_succ]
    dsimp only
    refine frame_trans
      (foldl_preserves (fun (acc : Deptree A × Finset Nat × Finset Nat) =>
        Frame t acc.1) (Deptree.simplifyStep fuel) hstep _ _ (frame_refl t))
      (frame_modify_down _ _ _ ?_)
    intro d
    exact ⟨rfl, rfl, rfl, rfl, Finset.filter_subset _ _⟩

/-- The pass `simplify` only shrinks down-sets and raises the `simple` flag. -/
theorem frame_simplify {A : Type} (t : Deptree A) :
    t.simplify.targets.length = t.targets.length ∧
    t.simplify.roots = t.roots ∧ t.simplify.leaves = t.leaves ∧
    t.simplify.running = t.running ∧
    ∀ i, FrameEqData (t.simplify.targets.getD i default)
      (t.targets.getD i default) := by
  rw [Deptree.simplify]
  split
  · exact ⟨rfl, rfl, rfl, rfl, fun _ => frameEqData_refl _⟩
  · have h : Frame t ((sortedList t.roots).foldl
        (fun (acc : Deptree A × Finset Nat) (root : Nat) =>
          let r2 := Deptree.simplifyImpl (t.targets.length + 1) acc.1 root acc.2
          (r2.1, r2.2.1))
        (t, (∅ : Finset Nat))).1 := by
      refine foldl_preserves (fun (acc : Deptree A × Finset Nat) => Frame t acc.1)
        _ ?_ _ _ (frame_refl t)
      intro acc x hacc
      exact frame_trans hacc (frame_simplifyImpl _ acc.1 x acc.2)
    exact ⟨h.1, h.2.1, h.2.2.1, h.2.2.2.1, h.2.2.2.2.2⟩

/-- After `simplify` the `simple` flag is set. -/
theorem simple_simplify {A : Type} (t : Deptree A) : t.simplify.simple = true := by
  rw [Deptree.simplify]
  split
  · assumption
  · rfl

/-! ### Public operations as a step relation, reachable trees -/

/-- One public mutating call on a `Deptree`. -/
inductive Op (A : Type) where
  | add_target (name : String) (attribs : Option A)
  | depend (one two : Nat)
  | start (h : Nat)
  | finish (h : Nat)
  | fail (h : Nat)
  | simplify

/-- The tree after one public call (the returned `Result` is dropped). -/
def Op.apply {A : Type} : Op A → Deptree A → Deptree A
  | Op.add_target n a, t => (t.add_target_attribs n a).1
  | Op.depend o tw, t => t.depend o tw
  | Op.start h, t => (t.start h).1
  | Op.finish h, t => (t.finish h).1
  | Op.fail h, t => (t.fail h).1
  | Op.simplify, t => t.simplify

/-- Handle arguments must be in range: the Rust code indexes `targets` with
them and would panic otherwise. -/
def Op.valid {A : Type} : Op A → Deptree A → Prop
  | Op.add_target _ _, _ => True
  | Op.depend o tw, t => o < t.targets.length ∧ tw < t.targets.length
  | Op.start h, t => h < t.targets.length
  | Op.finish h, t => h < t.targets.length
  | Op.fail h, t => h < t.targets.length
  | Op.simplify, _ => True

/-- Trees reachable from `new()` by sequences of valid public calls. -/
inductive Reachable {A : Type} : Deptree A → Prop where
  | base : Reachable Deptree.new
  | step {t : Deptree A} (op : Op A) :
      op.valid t → Reachable t → Reachable (op.apply t)

/-! ### Concrete trees from the spec scenarios -/

/-- Two targets a(0), b(1) with b depending on a. -/
def twoTree : Deptree Unit :=
  ((((Deptree.new.add_target "a").1).add_target "b").1).depend 1 0

/-- Scenario B: `start(a)` then `fail(a)` on `twoTree`. -/
def stuckTree : Deptree Unit := ((twoTree.start 0).1.fail 0).1

/-- Scenario C: a(0), b(1), c(2) with `depend(b,a)`, `depend(c,b)`,
`depend(c,a)` - the diamond with a redundant edge c→a. -/
def diamondTree : Deptree Unit :=
  (((((((Deptree.new.add_target "a").1).add_target "b").1).add_target
    "c").1).depend 1 0).depend 2 1 |>.depend 2 0

theorem reachable_twoTree : Reachable twoTree :=
  Reachable.step (Op.depend 1 0) ⟨by decide, by decide⟩
    (Reachable.step (Op.add_target "b" none) trivial
      (Reachable.step (Op.add_target "a" none) trivial Reachable.base))

theorem reachable_stuckTree : Reachable stuckTree :=
  Reachable.step (Op.fail 0)
    (show (0 : Nat) < ((twoTree.start 0).1).targets.length by decide)
    (Reachable.step (Op.start 0)
      (show (0 : Nat) < twoTree.targets.length by decide) reachable_twoTree)

theorem reachable_diamondTree : Reachable diamondTree :=
  Reachable.step (Op.depend 2 0) ⟨by decide, by decide⟩
    (Reachable.step (Op.depend 2 1) ⟨by decide, by decide⟩
      (Reachable.step (Op.depend 1 0) ⟨by decide, by decide⟩
        (Reachable.step (Op.add_target "c" none) trivial
          (Reachable.step (Op.add_target "b" none) trivial
            (Reachable.step (Op.add_target "a" none) trivial Reachable.base)))))

/-! ### Readiness -/

theorem mem_ready {A : Type} (t : Deptree A) (i : Nat) :
    i ∈ t.ready ↔
      i ∈ t.roots ∧ (t.targets.getD i default).state = TargetState.Unstarted :=
  Finset.mem_filter

/-! ### Claim theorems -/

/-- Claim C9: the reduction pass `simplify()` modifies only targets' down-sets
(and only by removing elements) and the dirty flag: every target's state,
name, attribs and up-set, as well as the root set, the leaves set and the
running counter, are identical before and after; up-sets are never pruned. -/
theorem simplify_frame_effect {A : Type} (t : Deptree A) (i : Nat) :
    t.simplify.targets.length = t.targets.length ∧
    t.simplify.roots = t.roots ∧
    t.simplify.leaves = t.leaves ∧
    t.simplify.running = t.running ∧
    (t.simplify.targets.getD i default).state = (t.targets.getD i default).state ∧
    (t.simplify.targets.getD i default).name = (t.targets.getD i default).name ∧
    (t.simplify.targets.getD i default).attribs
      = (t.targets.getD i default).attribs ∧
    (t.simplify.targets.getD i default).up = (t.targets.getD i default).up ∧
    (t.simplify.targets.getD i default).down ⊆ (t.targets.getD i default).down := by
  have h := frame_simplify t
  have hi := h.2.2.2.2 i
  exact ⟨h.1, h.2.1, h.2.2.1, h.2.2.2.1, hi.1, hi.2.1, hi.2.2.1, hi.2.2.2.1,
    hi.2.2.2.2⟩

/-- Claim C8: a second reduction pass with no intervening insertion is a
no-op (the whole tree, in particular the edge set, is unchanged); one pass
clears the dirty flag, a pass on a clean tree is the identity, and any
target or edge insertion dirties the flag again. -/
theorem simplify_idempotent {A : Type} (t : Deptree A) :
    t.simplify.simplify = t.simplify ∧
    t.simplify.simple = true ∧
    (t.simple = true → t.simplify = t) ∧
    (∀ n a, ((t.add_target_attribs n a).1).simple = false) ∧
    (∀ one two, (t.depend one two).simple = false) := by
  have hclean : ∀ (u : Deptree A), u.simple = true → u.simplify = u := by
    intro u hu
    rw [Deptree.simplify, if_pos hu]
  exact ⟨hclean _ (simple_simplify t), simple_simplify t, hclean t,
    fun _ _ => rfl, fun _ _ => rfl⟩

/-- Witness for C8 at a concrete clean tree. -/
theorem simplify_idempotent_witness :
    (Deptree.new : Deptree Unit).simple = true ∧
    (Deptree.new : Deptree Unit).simplify = Deptree.new :=
  ⟨rfl, (simplify_idempotent (Deptree.new : Deptree Unit)).2.2.1 rfl⟩

/-- Claim C2: `ready()` returns exactly the handles that are in the root set
and whose state is `Unstarted`; in particular it never returns a handle whose
state is not `Unstarted`. -/
theorem ready_iff_in_roots_unstarted {A : Type} (t : Deptree A) (_ht : Reachable t)
    (i : Nat) :
    (i ∈ t.ready ↔
      i ∈ t.roots ∧ (t.targets.getD i default).state = TargetState.Unstarted) ∧
    ((t.targets.getD i default).state ≠ TargetState.Unstarted → i ∉ t.ready) := by
  refine ⟨mem_ready t i, fun hs hmem => hs ?_⟩
  exact ((mem_ready t i).1 hmem).2

/-- Witness for C2 at the stuck two-target tree. -/
theorem ready_iff_in_roots_unstarted_witness :
    (1 ∈ stuckTree.ready ↔ 1 ∈ stuckTree.roots ∧
      (stuckTree.targets.getD 1 default).state = TargetState.Unstarted) ∧
    ((stuckTree.targets.getD 1 default).state ≠ TargetState.Unstarted →
      1 ∉ stuckTree.ready) :=
  ready_iff_in_roots_unstarted stuckTree reachable_stuckTree 1

/-- Claim C4 counterexample: in the diamond graph, after a reduction pass
`depends_on(c)` does NOT equal `{b}` - the pass never prunes up-sets, so
`depends_on(c)` still holds both a and b. -/
theorem diamond_depends_on_counterexample :
    ¬(diamondTree.simplify.depends_on 2 = ({1} : Finset Nat)) ∧
    diamondTree.simplify.depends_on 2 = ({0, 1} : Finset Nat) := by
  constructor
  · decide
  · decide

/-- Claim C4, amended: before reduction `depends_on(c) = {a, b}` and
`depended_by(a) = {b, c}`; after a reduction pass (direct, or triggered by a
`finish`) `depended_by(a)` shrinks to `{b}`, while `depends_on(c)` still
equals `{a, b}` because reduction prunes only down-sets. -/
theorem diamond_reduction :
    diamondTree.depends_on 2 = ({0, 1} : Finset Nat) ∧
    diamondTree.depended_by 0 = ({1, 2} : Finset Nat) ∧
    diamondTree.simplify.depends_on 2 = ({0, 1} : Finset Nat) ∧
    diamondTree.simplify.depended_by 0 = ({1} : Finset Nat) ∧
    diamondTree.simplify.depended_by 1 = ({2} : Finset Nat) ∧
    diamondTree.simplify.depended_by 2 = (∅ : Finset Nat) ∧
    ((diamondTree.start 0).1.finish 0).1.depended_by 0 = ({1} : Finset Nat) := by
  refine ⟨by decide, by decide, by decide, by decide, by decide, by decide,
    by decide⟩

/-- Claim C10: when `start` or `fail` returns an error the tree is completely
unchanged; when `finish` returns an error the result is exactly the simplified
tree - states, running counter and root set unchanged, but the dirty flag is
cleared (and down-sets may have been pruned) even though the call failed. -/
theorem error_frame {A : Type} (t : Deptree A) (h : Nat) :
    ((t.targets.getD h default).state ≠ TargetState.Unstarted →
      (t.start h).1 = t) ∧
    ((t.targets.getD h default).state ≠ TargetState.Started →
      (t.fail h).1 = t) ∧
    ((t.targets.getD h default).state ≠ TargetState.Started →
      (t.finish h).1 = t.simplify ∧
      (t.finish h).1.simple = true ∧
      (t.finish h).1.roots = t.roots ∧
      (t.finish h).1.running = t.running ∧
      ∀ i, ((t.finish h).1.targets.getD i default).state
        = (t.targets.getD i default).state) := by
  have hsim := frame_simplify t
  have hst : (t.simplify.targets.getD h default).state
      = (t.targets.getD h default).state := (hsim.2.2.2.2 h).1
  simp only [List.getD_eq_getElem?_getD] at hst
  refine ⟨fun hs => ?_, fun hs => ?_, fun hs => ?_⟩ <;>
    simp only [List.getD_eq_getElem?_getD] at hs
  · cases he : (t.targets[h]?.getD default).state
    · exact absurd he hs
    · simp [Deptree.start, he]
    · simp [Deptree.start, he]
    · simp [Deptree.start, he]
  · cases he : (t.targets[h]?.getD default).state
    · simp [Deptree.fail, he]
    · exact absurd he hs
    · simp [Deptree.fail, he]
    · simp [Deptree.fail, he]
  · have hres : (t.finish h).1 = t.simplify := by
      cases he : (t.targets[h]?.getD default).state
      · simp [Deptree.finish, hst, he]
      · exact absurd he hs
      · simp [Deptree.finish, hst, he]
      · simp [Deptree.finish, hst, he]
    rw [hres]
    exact ⟨rfl, simple_simplify t, hsim.2.1, hsim.2.2.2.1,
      fun i => (hsim.2.2.2.2 i).1⟩

/-- Witness for C10 at the stuck tree, handle 0 in state `Failed`. -/
theorem error_frame_witness :
    (stuckTree.start 0).1 = stuckTree ∧
    (stuckTree.fail 0).1 = stuckTree ∧
    (stuckTree.finish 0).1 = stuckTree.simplify :=
  ⟨(error_frame stuckTree 0).1 (by decide),
   (error_frame stuckTree 0).2.1 (by decide),
   ((error_frame stuckTree 0).2.2 (by decide)).1⟩

/-- Claim C3: in each illegal source state the lifecycle operations return
exactly the tabulated error variant carrying the target's name, and each
operation errors exactly when the target is not in its single legal source
state. -/
theorem lifecycle_error_table {A : Type} (t : Deptree A) (h : Nat)
    (_hlen : h < t.targets.length) :
    ((t.targets.getD h default).state = TargetState.Started →
      (t.start h).2 = Except.error (DeptreeError.AlreadyStarted (t.name h))) ∧
    ((t.targets.getD h default).state = TargetState.Failed →
      (t.start h).2 = Except.error (DeptreeError.StartedFailed (t.name h))) ∧
    ((t.targets.getD h default).state = TargetState.Finished →
      (t.start h).2 = Except.error (DeptreeError.StartedFinished (t.name h))) ∧
    ((t.targets.getD h default).state = TargetState.Unstarted →
      (t.finish h).2 = Except.error (DeptreeError.NotYetStarted (t.name h))) ∧
    ((t.targets.getD h default).state = TargetState.Finished →
      (t.finish h).2 = Except.error (DeptreeError.AlreadyFinished (t.name h))) ∧
    ((t.targets.getD h default).state = TargetState.Failed →
      (t.finish h).2 = Except.error (DeptreeError.FinishFailed (t.name h))) ∧
    ((t.targets.getD h default).state = TargetState.Unstarted →
      (t.fail h).2 = Except.error (DeptreeError.UnstartedFailed (t.name h))) ∧
    ((t.targets.getD h default).state = TargetState.Finished →
      (t.fail h).2 = Except.error (DeptreeError.FinishFailed (t.name h))) ∧
    ((t.targets.getD h default).state = TargetState.Failed →
      (t.fail h).2 = Except.error (DeptreeError.AlreadyFailed (t.name h))) ∧
    ((∃ e, (t.start h).2 = Except.error e) ↔
      (t.targets.getD h default).state ≠ TargetState.Unstarted) ∧
    ((∃ e, (t.finish h).2 = Except.error e) ↔
      (t.targets.getD h default).state ≠ TargetState.Started) ∧
    ((∃ e, (t.fail h).2 = Except.error e) ↔
      (t.targets.getD h default).state ≠ TargetState.Started) := by
  have hsim := frame_simplify t
  have hst : (t.simplify.targets.getD h default).state
      = (t.targets.getD h default).state := (hsim.2.2.2.2 h).1
  have hnm : (t.simplify.targets.getD h default).name
      = (t.targets.getD h default).name := (hsim.2.2.2.2 h).2.1
  simp only [List.getD_eq_getElem?_getD] at hst hnm
  cases he : (t.targets[h]?.getD default).state <;>
    simp [Deptree.start, Deptree.finish, Deptree.fail, Deptree.name,
      he, hst, hnm]

/-- Witness for C3 at the stuck tree: handle 0 is `Failed`, handle 1 is
`Unstarted`. -/
theorem lifecycle_error_table_witness :
    (stuckTree.start 0).2
      = Except.error (DeptreeError.StartedFailed (stuckTree.name 0)) ∧
    (stuckTree.finish 0).2
      = Except.error (DeptreeError.FinishFailed (stuckTree.name 0)) ∧
    (stuckTree.fail 0).2
      = Except.error (DeptreeError.AlreadyFailed (stuckTree.name 0)) ∧
    (stuckTree.finish 1).2
      = Except.error (DeptreeError.NotYetStarted (stuckTree.name 1)) ∧
    (stuckTree.fail 1).2
      = Except.error (DeptreeError.UnstartedFailed (stuckTree.name 1)) :=
  ⟨(lifecycle_error_table stuckTree 0 (by decide)).2.1 (by decide),
   (lifecycle_error_table stuckTree 0 (by decide)).2.2.2.2.2.1 (by decide),
   (lifecycle_error_table stuckTree 0 (by decide)).2.2.2.2.2.2.2.2.1 (by decide),
   (lifecycle_error_table stuckTree 1 (by decide)).2.2.2.1 (by decide),
   (lifecycle_error_table stuckTree 1 (by decide)).2.2.2.2.2.2.1 (by decide)⟩

/-! ### State monotonicity -/

/-- A single operation either leaves a state alone, starts an `Unstarted`
target, or terminates a `Started` one. -/
def StateAdvance (s s' : TargetState) : Prop :=
  s' = s ∨
  (s = TargetState.Unstarted ∧ s' = TargetState.Started) ∨
  (s = TargetState.Started ∧
    (s' = TargetState.Finished ∨ s' = TargetState.Failed))

theorem getD_append_single {α : Type} [Inhabited α] (l : List α) (x : α) (i : Nat) :
    (l ++ [x]).getD i default
      = if i < l.length then l.getD i default
        else if i = l.length then x else default := by
  rcases lt_trichotomy i l.length with hlt | heq | hgt
  · rw [if_pos hlt, List.getD_append _ _ _ _ hlt]
  · rw [if_neg (by omega), if_pos heq, List.getD_append_right _ _ _ _ (by omega),
      heq, Nat.sub_self]
    rfl
  · rw [if_neg (by omega), if_neg (by omega),
      List.getD_append_right _ _ _ _ (by omega), List.getD_eq_default _ _
        (by simp only [List.length_singleton]; omega)]

/-- A record modification that does not touch the `state` field leaves every
slot's state unchanged. -/
theorem getD_modifyIdx_state {A : Type} (g : TargetData A → TargetData A)
    (hg : ∀ d, (g d).state = d.state) (n i : Nat) (l : List (TargetData A)) :
    ((modifyIdx g n l).getD i default).state = (l.getD i default).state := by
  by_cases hi : i = n
  · subst hi
    by_cases hlt : i < l.length
    · rw [getD_modifyIdx_self _ _ _ _ hlt, hg]
    · rw [modifyIdx_oob _ _ _ (by omega)]
  · rw [getD_modifyIdx_ne _ _ _ _ _ hi]

/-- The state of any slot after a `start`/`finish`/`fail`-style transition at
index `h`: unchanged away from `h`, the new state at `h` (when in range). -/
theorem getD_modifyIdx_setState {A : Type} (s : TargetState) (h i : Nat)
    (l : List (TargetData A)) :
    ((modifyIdx (fun d => { d with state := s }) h l).getD i default).state
      = if i = h ∧ i < l.length then s else (l.getD i default).state := by
  by_cases hi : i = h
  · subst hi
    by_cases hlt : i < l.length
    · rw [getD_modifyIdx_self _ _ _ _ hlt, if_pos ⟨rfl, hlt⟩]
    · rw [modifyIdx_oob _ _ _ (by omega), if_neg (by tauto)]
  · rw [getD_modifyIdx_ne _ _ _ _ _ hi, if_neg (by tauto)]

/-- Claim C6: no public operation moves a target's state backwards, moves
`Unstarted` directly to a terminal state, or changes a `Finished` or `Failed`
state; states only advance along Unstarted → Started → {Finished, Failed}. -/
theorem state_monotone {A : Type} (op : Op A) (t : Deptree A) (i : Nat) :
    StateAdvance ((t.targets.getD i default).state)
      (((op.apply t).targets.getD i default).state) := by
  cases op with
  | add_target n a =>
    show StateAdvance _
      (((t.targets ++ [TargetData.mk_new n a]).getD i default).state)
    rw [getD_append_single]
    split
    · exact Or.inl rfl
    · split
      · exact Or.inl (by rw [List.getD_eq_default _ _ (by omega)]; rfl)
      · exact Or.inl (by rw [List.getD_eq_default _ _ (by omega)])
  | depend o tw =>
    refine Or.inl ?_
    show ((modifyIdx _ tw (modifyIdx _ o t.targets)).getD i default).state = _
    rw [getD_modifyIdx_state (fun d => { d with down := insert o d.down })
        (fun d => rfl) tw i _,
      getD_modifyIdx_state (fun d => { d with up := insert tw d.up })
        (fun d => rfl) o i _]
  | start h =>
    by_cases heh : (t.targets.getD h default).state = TargetState.Unstarted
    · have htar : ((Op.start h).apply t).targets
          = modifyIdx (fun d => { d with state := TargetState.Started })
            h t.targets := by
        simp only [Op.apply, Deptree.start]
        rw [heh]
      rw [htar, getD_modifyIdx_setState]
      split
      · next hcond =>
          exact Or.inr (Or.inl ⟨by rw [hcond.1]; exact heh, rfl⟩)
      · exact Or.inl rfl
    · have htar : (Op.start h).apply t = t := by
        cases hs2 : (t.targets.getD h default).state
        · exact absurd hs2 heh
        all_goals simp only [Op.apply, Deptree.start]; rw [hs2]
      rw [htar]
      exact Or.inl rfl
  | finish h =>
    have hsim := frame_simplify t
    cases heh : (t.simplify.targets.getD h default).state
    case Started =>
      have htar : ((Op.finish h).apply t).targets
          = modifyIdx (fun d => { d with state := TargetState.Finished })
            h t.simplify.targets := by
        simp only [Op.apply, Deptree.finish]
        rw [heh]
      rw [htar, getD_modifyIdx_setState]
      split
      · next hcond =>
          refine Or.inr (Or.inr ⟨?_, Or.inl rfl⟩)
          rw [hcond.1, ← (hsim.2.2.2.2 h).1]
          exact heh
      · exact Or.inl ((hsim.2.2.2.2 i).1)
    all_goals
      have htar : (Op.finish h).apply t = t.simplify := by
        simp only [Op.apply, Deptree.finish]
        rw [heh]
      rw [htar]
      exact Or.inl ((hsim.2.2.2.2 i).1)
  | fail h =>
    cases heh : (t.targets.getD h default).state
    case Started =>
      have htar : ((Op.fail h).apply t).targets
          = modifyIdx (fun d => { d with state := TargetState.Failed })
            h t.targets := by
        simp only [Op.apply, Deptree.fail]
        rw [heh]
      rw [htar, getD_modifyIdx_setState]
      split
      · next hcond =>
          exact Or.inr (Or.inr ⟨by rw [hcond.1]; exact heh, Or.inr rfl⟩)
      · exact Or.inl rfl
    all_goals
      have htar : (Op.fail h).apply t = t := by
        simp only [Op.apply, Deptree.fail]
        rw [heh]
      rw [htar]
      exact Or.inl rfl
  | simplify => exact Or.inl ((frame_simplify t).2.2.2.2 i).1

/-- Claim C1: from `Started`, `finish(h)` first runs the reduction pass when
the dirty flag is set, returns `Ok`, sets the state to `Finished`, adds every
handle of the just-reduced down-set to the root set, decrements the running
counter by one, and removes `h` from the root set. -/
theorem finish_started {A : Type} (t : Deptree A) (h : Nat)
    (hlen : h < t.targets.length)
    (hs : (t.targets.getD h default).state = TargetState.Started) :
    (t.finish h).2 = Except.ok () ∧
    ((t.finish h).1.targets.getD h default).state = TargetState.Finished ∧
    (t.finish h).1.roots
      = (t.simplify.roots ∪ (t.simplify.targets.getD h default).down).erase h ∧
    (∀ j, j ∈ (t.simplify.targets.getD h default).down → j ≠ h →
      j ∈ (t.finish h).1.roots) ∧
    h ∉ (t.finish h).1.roots ∧
    (t.finish h).1.running = t.running - 1 ∧
    (t.finish h).1.simple = true := by
  have hsim := frame_simplify t
  have hs2 : (t.simplify.targets.getD h default).state = TargetState.Started :=
    ((hsim.2.2.2.2 h).1).trans hs
  have hfin : t.finish h = ({ t.simplify with
      targets := modifyIdx (fun d => { d with state := TargetState.Finished })
        h t.simplify.targets,
      roots := (t.simplify.roots
        ∪ (t.simplify.targets.getD h default).down).erase h,
      running := t.simplify.running - 1 }, Except.ok ()) := by
    simp only [Deptree.finish]
    rw [hs2]
  rw [hfin]
  refine ⟨rfl, ?_, rfl, ?_, ?_, ?_, ?_⟩
  · show ((modifyIdx _ h t.simplify.targets).getD h default).state = _
    rw [getD_modifyIdx_setState, if_pos ⟨rfl, by rw [hsim.1]; exact hlen⟩]
  · intro j hj hne
    exact Finset.mem_erase.2 ⟨hne, Finset.mem_union_right _ hj⟩
  · exact Finset.not_mem_erase _ _
  · show t.simplify.running - 1 = t.running - 1
    rw [hsim.2.2.2.1]
  · exact simple_simplify t

/-- Witness for C1: finishing target a of the two-target tree after starting
it. -/
theorem finish_started_witness :
    (((twoTree.start 0).1).finish 0).2 = Except.ok () ∧
    ((((twoTree.start 0).1).finish 0).1.targets.getD 0 default).state
      = TargetState.Finished :=
  ⟨(finish_started (twoTree.start 0).1 0 (by decide) (by decide)).1,
   (finish_started (twoTree.start 0).1 0 (by decide) (by decide)).2.1⟩

/-- Claim C7: after `depend(b, a)`, `start(a)` and `fail(a)` (both
succeeding), `done()` is true while b is still `Unstarted` and `ready()` is
empty; no single valid non-error operation makes b ready; and in every tree
`done()` holds exactly when the running counter is zero and the root set is
empty. -/
theorem stuck_on_failure :
    (twoTree.start 0).2 = Except.ok () ∧
    ((twoTree.start 0).1.fail 0).2 = Except.ok () ∧
    stuckTree.done = true ∧
    (stuckTree.targets.getD 1 default).state = TargetState.Unstarted ∧
    stuckTree.ready = ∅ ∧
    (∀ op : Op Unit, op.valid stuckTree →
      (1 : Nat) ∉ (op.apply stuckTree).ready) ∧
    ∀ (B : Type) (u : Deptree B), u.done = true ↔ u.running = 0 ∧ u.roots = ∅ := by
  refine ⟨by rfl, by rfl, by decide, by decide, by decide, ?_, ?_⟩
  · intro op hv
    cases op with
    | add_target n a =>
      intro hmem
      have h1 := ((mem_ready _ _).1 hmem).1
      have e : stuckTree.roots = ∅ := by decide
      have e2 : stuckTree.targets.length = 2 := by decide
      rw [show ((Op.add_target n a).apply stuckTree).roots
          = insert 2 (∅ : Finset Nat) by
        show insert stuckTree.targets.length stuckTree.roots = _
        rw [e, e2]] at h1
      simp at h1
    | depend o tw =>
      intro hmem
      have h1 := ((mem_ready _ _).1 hmem).1
      have e : stuckTree.roots = ∅ := by decide
      rw [show ((Op.depend o tw).apply stuckTree).roots
          = (∅ : Finset Nat).erase o by
        show stuckTree.roots.erase o = _
        rw [e]] at h1
      simp at h1
    | start h =>
      have h2 : h < 2 := hv
      rcases (by omega : h = 0 ∨ h = 1) with rfl | rfl
      · decide
      · decide
    | finish h =>
      have h2 : h < 2 := hv
      rcases (by omega : h = 0 ∨ h = 1) with rfl | rfl
      · decide
      · decide
    | fail h =>
      have h2 : h < 2 := hv
      rcases (by omega : h = 0 ∨ h = 1) with rfl | rfl
      · decide
      · decide
    | simplify => decide
  · intro B u
    simp [Deptree.done]

/-- Witness for C7: starting b is a valid operation on the stuck tree and
does not make b ready. -/
theorem stuck_on_failure_witness :
    (1 : Nat) ∉ ((Op.start 1).apply stuckTree).ready :=
  stuck_on_failure.2.2.2.2.2.1 (Op.start 1)
    (show (1 : Nat) < stuckTree.targets.length by decide)

/-! ### The running counter invariant -/

theorem countP_modifyIdx_invariant {α : Type} [Inhabited α] (p : α → Bool)
    (g : α → α) (hg : ∀ a, p (g a) = p a) (n : Nat) (l : List α) :
    (modifyIdx g n l).countP p = l.countP p := by
  by_cases hlt : n < l.length
  · have hc := countP_modifyIdx p g n l default hlt
    rw [hg] at hc
    omega
  · rw [modifyIdx_oob _ _ _ (by omega)]

/-- Claim C5: in every tree reachable from `new()` by valid public
operations, the running counter equals the number of targets whose state is
`Started`. -/
theorem running_eq_started_count {A : Type} (t : Deptree A) (ht : Reachable t) :
    t.running
      = t.targets.countP (fun d => decide (d.state = TargetState.Started)) := by
  induction ht with
  | base => rfl
  | @step u op hv hr ih =>
    cases op with
    | add_target n a =>
      show u.running = ((u.targets ++ [TargetData.mk_new n a]).countP _)
      rw [List.countP_append, ih]
      simp [TargetData.mk_new]
    | depend o tw =>
      show u.running = ((modifyIdx _ tw (modifyIdx _ o u.targets)).countP _)
      rw [countP_modifyIdx_invariant
          (fun (d : TargetData A) => decide (d.state = TargetState.Started))
          (fun d => { d with down := insert o d.down }) (fun d => rfl) tw _,
        countP_modifyIdx_invariant
          (fun (d : TargetData A) => decide (d.state = TargetState.Started))
          (fun d => { d with up := insert tw d.up }) (fun d => rfl) o _]
      exact ih
    | start h =>
      cases hs : (u.targets.getD h default).state
      case Unstarted =>
        have hres : (Op.start h).apply u = { u with
            targets := modifyIdx (fun d => { d with state := TargetState.Started })
              h u.targets,
            running := u.running + 1 } := by
          simp only [Op.apply, Deptree.start]
          rw [hs]
        rw [hres]
        show u.running + 1 = ((modifyIdx _ h u.targets).countP _)
        have hc := countP_modifyIdx
          (fun d => decide (d.state = TargetState.Started))
          (fun d => { d with state := TargetState.Started }) h u.targets default hv
        simp only [hs] at hc
        simp at hc
        omega
      all_goals
        have hres : (Op.start h).apply u = u := by
          simp only [Op.apply, Deptree.start]
          rw [hs]
        rw [hres]
        exact ih
    | finish h =>
      have hsim := frame_simplify u
      have hcount : u.simplify.targets.countP
            (fun d => decide (d.state = TargetState.Started))
          = u.targets.countP (fun d => decide (d.state = TargetState.Started)) :=
        countP_eq_of_getD _ _ _ hsim.1 (fun i => by rw [(hsim.2.2.2.2 i).1])
      cases hs : (u.simplify.targets.getD h default).state
      case Started =>
        have hlen2 : h < u.simplify.targets.length := by
          by_contra hno
          rw [List.getD_eq_default _ _ (by omega),
            show (default : TargetData A).state = TargetState.Unstarted from rfl]
            at hs
          exact TargetState.noConfusion hs
        have hres : (Op.finish h).apply u = { u.simplify with
            targets := modifyIdx
              (fun d => { d with state := TargetState.Finished })
              h u.simplify.targets,
            roots := (u.simplify.roots
              ∪ (u.simplify.targets.getD h default).down).erase h,
            running := u.simplify.running - 1 } := by
          simp only [Op.apply, Deptree.finish]
          rw [hs]
        rw [hres]
        show u.simplify.running - 1 = ((modifyIdx _ h u.simplify.targets).countP _)
        have hc := countP_modifyIdx
          (fun d => decide (d.state = TargetState.Started))
          (fun d => { d with state := TargetState.Finished })
          h u.simplify.targets default hlen2
        simp only [hs] at hc
        simp at hc
        rw [hsim.2.2.2.1]
        omega
      all_goals
        have hres : (Op.finish h).apply u = u.simplify := by
          simp only [Op.apply, Deptree.finish]
          rw [hs]
        rw [hres, hsim.2.2.2.1, hcount]
        exact ih
    | fail h =>
      cases hs : (u.targets.getD h default).state
      case Started =>
        have hres : (Op.fail h).apply u = { u with
            targets := modifyIdx (fun d => { d with state := TargetState.Failed })
              h u.targets,
            running := u.running - 1,
            roots := u.roots.erase h } := by
          simp only [Op.apply, Deptree.fail]
          rw [hs]
        rw [hres]
        show u.running - 1 = ((modifyIdx _ h u.targets).countP _)
        have hc := countP_modifyIdx
          (fun d => decide (d.state = TargetState.Started))
          (fun d => { d with state := TargetState.Failed }) h u.targets default hv
        simp only [hs] at hc
        simp at hc
        omega
      all_goals
        have hres : (Op.fail h).apply u = u := by
          simp only [Op.apply, Deptree.fail]
          rw [hs]
        rw [hres]
        exact ih
    | simplify =>
      have hsim := frame_simplify u
      have hcount : u.simplify.targets.countP
            (fun d => decide (d.state = TargetState.Started))
          = u.targets.countP (fun d => decide (d.state = TargetState.Started)) :=
        countP_eq_of_getD _ _ _ hsim.1 (fun i => by rw [(hsim.2.2.2.2 i).1])
      show u.simplify.running
        = u.simplify.targets.countP (fun d => decide (d.state = TargetState.Started))
      rw [hsim.2.2.2.1, hcount]
      exact ih

/-- Witness for C5 at the stuck two-target tree. -/
theorem running_eq_started_count_witness :
    stuckTree.running
      = stuckTree.targets.countP
          (fun d => decide (d.state = TargetState.Started)) :=
  running_eq_started_count stuckTree reachable_stuckTree
